import Mathlib

/-!
Shallow embedding of the personalized content-distribution core of
src/lucky-puppy-bot-main/index.js: the per-user non-repeating quote rotation
(fisherYatesShuffle, buildNewQueue, getNextQuoteForUser), the persisted-store
loaders (loadUsers, the greeted-users load, loadUserQueues, readLines), the
inline greet-once logic of the message handler, the deduplicated article feed
(getRandomArticle), the daily fan-out (sendDailyQuotesToUsers) and the
scheduled channel broadcast (postQuote).

Module-level JavaScript state (the quotes array, the _userQueues dictionary,
randomness from Math.random, the persisted files) is passed explicitly: every
function takes the corpus, a randomness source and the state it reads, and
returns its result together with the updated state.  A JavaScript value that
may be undefined is an Option; a Math.random draw used to pick an index in
[0, b) is modeled as an arbitrary natural number reduced mod b.
-/

namespace LuckyPuppy

/-- Per-user rotation state, the value shape persisted in user_queues.json:
a queue of corpus indices remaining to be delivered and the corpus length
the queue was generated against. -/
structure RotationState where
  queue : List Nat
  version : Nat
deriving Repr, DecidableEq

/-- The in-memory _userQueues dictionary: user id to rotation state; absent
keys are none. -/
abbrev QMap : Type := Nat → Option RotationState

/-- One in-place swap arr[i] <-> arr[j] of the Fisher-Yates loop body
([arr[i], arr[j]] = [arr[j], arr[i]]), on lists. -/
def fyStep (a : List Nat) (i j : Nat) : List Nat :=
  (a.set i (a.getD j 0)).set j (a.getD i 0)

/-- The loop of fisherYatesShuffle: for (let i = arr.length - 1; i > 0; i--)
swap arr[i] with arr[j] for j = floor(random * (i + 1)).  The randomness
source rnd gives, for each loop counter i, a number reduced mod (i + 1)
to the index j in [0, i] that Math.random produces there. -/
def fyGo (rnd : Nat → Nat) : Nat → List Nat → List Nat
  | 0, a => a
  | i + 1, a => fyGo rnd i (fyStep a (i + 1) (rnd (i + 1) % (i + 2)))

/-- Model of fisherYatesShuffle(arr): run the swap loop from arr.length - 1
down to 1. -/
def fisherYatesShuffle (arr : List Nat) (rnd : Nat → Nat) : List Nat :=
  fyGo rnd (arr.length - 1) arr

/-- Model of buildNewQueue(): fisherYatesShuffle([...Array(quotes.length).keys()]),
parametrized by the corpus length. -/
def buildNewQueue (quotesLen : Nat) (rnd : Nat → Nat) : List Nat :=
  fisherYatesShuffle (List.range quotesLen) rnd

/-- Model of getNextQuoteForUser(userId).  The module state _userQueues is m;
rnd is the randomness consumed by a possible reshuffle.  Returns the value of
the JavaScript expression quotes[nextIndex] (none when nextIndex or the
element lookup is undefined) together with the updated, immediately persisted
map.  The shift() on the queue is head?/tail: on an empty queue shift()
returns undefined and leaves the queue empty. -/
def getNextQuoteForUser (quotes : List String) (rnd : Nat → Nat) (m : QMap)
    (userId : Nat) : Option String × QMap :=
  let user0 := (m userId).getD { queue := [], version := quotes.length }
  let user1 :=
    if user0.version ≠ quotes.length ∨ user0.queue = [] then
      { queue := buildNewQueue quotes.length rnd, version := quotes.length }
    else user0
  let nextIndex := user1.queue.head?
  let user2 : RotationState := { queue := user1.queue.tail, version := user1.version }
  (nextIndex.bind (fun i => quotes.get? i),
   fun u => if u = userId then some user2 else m u)

/-- Consecutive calls to getNextQuoteForUser for one user, one randomness
source per call; returns the delivered values in order and the final map. -/
def iterateNext (quotes : List String) (u : Nat) :
    List (Nat → Nat) → QMap → List (Option String) × QMap
  | [], m => ([], m)
  | r :: rs, m =>
      let step := getNextQuoteForUser quotes r m u
      let rest := iterateNext quotes u rs step.2
      (step.1 :: rest.1, rest.2)

/-- Outcome of reading and JSON-parsing one persisted document at startup:
the file may be absent (fs.readFileSync throws ENOENT), present but empty
(readFileSync returns the empty string), present with content JSON.parse
rejects, or present with well-formed content v. -/
inductive ReadResult (α : Type) where
  | missing : ReadResult α
  | emptyFile : ReadResult α
  | malformed : ReadResult α
  | ok : α → ReadResult α
deriving Repr, DecidableEq

/-- Model of loadUsers(): try return new Set(JSON.parse(readFileSync(USERS_FILE)))
catch return new Set().  Every failed read or parse is caught and degrades to
the empty set. -/
def loadUsers : ReadResult (List Nat) → List Nat
  | ReadResult.ok v => v
  | _ => []

/-- Model of the top-level statement
greetedUsers = new Set(JSON.parse(fs.readFileSync(GREETED_USERS_FILE, "utf-8") || "[]")).
There is no try/catch here: a missing file makes readFileSync throw and a
malformed file makes JSON.parse throw, both uncaught at module load; only an
empty file is rescued by the || "[]" fallback. -/
def loadGreetedUsers : ReadResult (List Nat) → Except String (List Nat)
  | ReadResult.missing => Except.error "ENOENT: no such file or directory"
  | ReadResult.emptyFile => Except.ok []
  | ReadResult.malformed => Except.error "SyntaxError: Unexpected token in JSON"
  | ReadResult.ok v => Except.ok v

/-- Model of readLines(file): try readFileSync(file).split newline, keep
truthy lines; catch return []. -/
def readLines : ReadResult String → List String
  | ReadResult.ok s => (s.splitOn "\n").filter (fun l => l != "")
  | _ => []

/-- A parsed user_queues.json entry: either a legacy bare number (Sum.inl)
or the documented {queue, version} object (Sum.inr). -/
abbrev QueueEntry : Type := Int ⊕ RotationState

/-- The body of the loadUserQueues migration loop: if typeof val === "number"
replace it with { queue: [], version: quotes.length }. -/
def migrateEntry (quotesLen : Nat) : QueueEntry → QueueEntry
  | Sum.inl _ => Sum.inr { queue := [], version := quotesLen }
  | Sum.inr s => Sum.inr s

/-- Model of loadUserQueues(): try parse the persisted dictionary and migrate
every legacy numeric entry; catch return {}. -/
def loadUserQueues (quotesLen : Nat) :
    ReadResult (List (Nat × QueueEntry)) → List (Nat × QueueEntry)
  | ReadResult.ok entries => entries.map (fun p => (p.1, migrateEntry quotesLen p.2))
  | _ => []

/-- The loaded dictionary viewed as the in-memory _userQueues map (the
JavaScript object serves as both). -/
def queuesMap (entries : List (Nat × QueueEntry)) : QMap := fun u =>
  match entries.lookup u with
  | some (Sum.inr s) => some s
  | some (Sum.inl _) => some { queue := [], version := 0 }
  | none => none

/-- An inbound Telegram message as the handler sees it: msg.from.id,
msg.chat.id and msg.text (undefined for non-text messages). -/
structure Msg where
  fromId : Nat
  chatId : Nat
  text : Option String
deriving Repr, DecidableEq

/-- The registries the message handler mutates: the known-users set and the
greeted-users set, both write-through persisted. -/
structure RegState where
  users : List Nat
  greeted : List Nat
deriving Repr, DecidableEq

/-- The command test msg.text.startsWith("/"): with the one-character pattern
"/" this is exactly "the first character is a slash", written on the
character list so that it evaluates by kernel reduction. -/
def startsWithSlash (t : String) : Bool :=
  t.data.head? == some '/'

/-- Truthiness of msg.text combined with the not-a-command test: the greet
branch requires msg.text && !msg.text.startsWith("/"). -/
def isChatText : Option String → Bool
  | some t => !(t == "") && !(startsWithSlash t)
  | none => false

/-- The guard of the greet-once branch:
!greetedUsers.has(userId) && msg.text && !msg.text.startsWith("/"). -/
def greetCondition (greeted : List Nat) (msg : Msg) : Bool :=
  !(greeted.contains msg.fromId) && isChatText msg.text

/-- Model of the bot.on("message") handler up to the greet-once block: store
the user if unknown, then send the introduction and persist the greeted set
exactly when the greet guard holds.  The returned Bool is whether the
introduction was sent on this call. -/
def handleMessage (st : RegState) (msg : Msg) : Bool × RegState :=
  let users1 :=
    if st.users.contains msg.fromId then st.users else st.users ++ [msg.fromId]
  if greetCondition st.greeted msg then
    (true, { users := users1, greeted := st.greeted ++ [msg.fromId] })
  else
    (false, { users := users1, greeted := st.greeted })

/-- A sequence of inbound messages through the handler; records for each
message whether the introduction was sent. -/
def runMessages (st : RegState) : List Msg → List (Msg × Bool) × RegState
  | [] => ([], st)
  | msg :: rest =>
      let step := handleMessage st msg
      let restRun := runMessages step.2 rest
      ((msg, step.1) :: restRun.1, restRun.2)

/-- How many messages of a trace greeted user u. -/
def greetCount (trace : List (Msg × Bool)) (u : Nat) : Nat :=
  trace.countP (fun p => (p.1.fromId == u) && p.2)

/-- A message from user u that takes the greet branch when u is ungreeted:
a non-empty text not starting with "/". -/
def qualifies (u : Nat) (msg : Msg) : Bool :=
  (msg.fromId == u) && isChatText msg.text

/-- The hard-coded finite article pool of getRandomArticle. -/
def dummyArticles : List String :=
  ["https://example.com/article1",
   "https://example.com/article2",
   "https://example.com/article3"]

/-- Model of getRandomArticle(): posted is the line list of
posted_articles.txt; candidates are the pool items not yet posted; if none
remain return null, else pick one (rnd mod the candidate count models
Math.floor(Math.random() * options.length)), append it to the file and
return it. -/
def getRandomArticle (posted : List String) (rnd : Nat) :
    Option String × List String :=
  let options := dummyArticles.filter (fun url => !(posted.contains url))
  if options.isEmpty then (none, posted)
  else
    let choice := options.getD (rnd % options.length) ""
    (some choice, posted ++ [choice])

/-- Consecutive getRandomArticle calls, one randomness draw per call. -/
def runArticles : List String → List Nat → List (Option String) × List String
  | posted, [] => ([], posted)
  | posted, r :: rs =>
      let step := getRandomArticle posted r
      let rest := runArticles step.2 rs
      (step.1 :: rest.1, rest.2)

/-- JavaScript template-literal rendering of a possibly-undefined value:
an undefined interpolates as the text "undefined". -/
def jsInterp : Option String → String
  | some s => s
  | none => "undefined"

/-- The daily fan-out message body built from the rotation result. -/
def dailyQuoteMessage (q : Option String) : String :=
  "📜 Daily quote:\n\n“" ++ jsInterp q ++ "”"

/-- Model of sendDailyQuotesToUsers(): for every known user draw the next
rotation quote and attempt one transport send inside try/catch, so a failed
send (transport returns false) is logged for that recipient and the loop
continues.  rnd gives each user's reshuffle randomness; the trace records
(recipient, message, send outcome) in order. -/
def sendDailyQuotesToUsers (quotes : List String) (rnd : Nat → Nat → Nat)
    (transport : Nat → String → Bool) :
    List Nat → QMap → List (Nat × String × Bool) × QMap
  | [], m => ([], m)
  | uid :: rest, m =>
      let step := getNextQuoteForUser quotes (rnd uid) m uid
      let message := dailyQuoteMessage step.1
      let sent := transport uid message
      let restRun := sendDailyQuotesToUsers quotes rnd transport rest step.2
      ((uid, message, sent) :: restRun.1, restRun.2)

/-- Model of the quote pick in postQuote(chatId):
quotes[Math.floor(Math.random() * quotes.length)] (none on an empty corpus,
where the index expression is out of range). -/
def postQuote (quotes : List String) (rnd : Nat) : Option String :=
  quotes.get? (rnd % quotes.length)

/-- The cron action bound to "0 9,18 * * *": () => postQuote(TARGET_CHAT_ID).
The per-user rotation map is threaded through unchanged to make explicit
that the scheduled channel broadcast neither reads nor writes any rotation
state. -/
def channelQuoteBroadcast (quotes : List String) (rnd : Nat) (m : QMap) :
    Option String × QMap :=
  (postQuote quotes rnd, m)

/-- A map with no stored rotation state, as at first startup. -/
def mapFresh : QMap := fun _ => none

/-- A map for a mid-generation rotation state of user 0 over a two-item
corpus: index 0 already consumed, index 1 still queued. -/
def mapMidGeneration : QMap := fun u =>
  if u = 0 then some { queue := [1], version := 2 } else none

/-- The spec invariant on a rotation state: all queue indices in range
[0, version), no duplicates, and the queue is a permutation of the index
range minus its consumed prefix. -/
def QueueInv (st : RotationState) : Prop :=
  (∀ i ∈ st.queue, i < st.version) ∧ st.queue.Nodup ∧
  ∃ p k, List.Perm p (List.range st.version) ∧ st.queue = List.drop k p

/-- The maps reachable for a user u: from an absent entry or a freshly
regenerated full-shuffle entry, through any sequence of getNextQuoteForUser
calls for u (the corpus is immutable within a process lifetime). -/
inductive ReachableQ (quotes : List String) (u : Nat) : QMap → Prop where
  | empty (m : QMap) (h : m u = none) : ReachableQ quotes u m
  | fresh (m : QMap) (rnd : Nat → Nat)
      (h : m u = some ⟨buildNewQueue quotes.length rnd, quotes.length⟩) :
      ReachableQ quotes u m
  | step (m : QMap) (rnd : Nat → Nat) (hr : ReachableQ quotes u m) :
      ReachableQ quotes u (getNextQuoteForUser quotes rnd m u).2

section ShuffleLemmas

/-- Replacing position k of xs by x and putting the old xs[k] in front is a
permutation of putting x in front of xs. -/
theorem getD_cons_set_perm (x : Nat) :
    ∀ (xs : List Nat) (k : Nat), k < xs.length →
      List.Perm (xs.getD k 0 :: xs.set k x) (x :: xs)
  | [], k, h => absurd h (by simp)
  | y :: ys, 0, _ => by
      simpa using List.Perm.swap x y ys
  | y :: ys, k + 1, h => by
      have hk : k < ys.length := by simpa using h
      have ih := getD_cons_set_perm x ys k hk
      have h1 : ((y :: ys).getD (k + 1) 0 :: (y :: ys).set (k + 1) x)
          = ys.getD k 0 :: y :: ys.set k x := by simp
      rw [h1]
      exact ((List.Perm.swap y (ys.getD k 0) _).trans (ih.cons y)).trans
        (List.Perm.swap x y ys)

/-- One Fisher-Yates swap preserves the multiset of list elements. -/
theorem fyStep_perm :
    ∀ (a : List Nat) (i j : Nat), i < a.length → j < a.length →
      List.Perm (fyStep a i j) a
  | [], i, _, hi, _ => absurd hi (by simp)
  | x :: xs, 0, 0, _, _ => by simp [fyStep]
  | x :: xs, 0, j + 1, _, hj => by
      have hj' : j < xs.length := by simpa using hj
      have h1 : fyStep (x :: xs) 0 (j + 1) = xs.getD j 0 :: xs.set j x := by
        simp [fyStep]
      rw [h1]
      exact getD_cons_set_perm x xs j hj'
  | x :: xs, i + 1, 0, hi, _ => by
      have hi' : i < xs.length := by simpa using hi
      have h1 : fyStep (x :: xs) (i + 1) 0 = xs.getD i 0 :: xs.set i x := by
        simp [fyStep]
      rw [h1]
      exact getD_cons_set_perm x xs i hi'
  | x :: xs, i + 1, j + 1, hi, hj => by
      have hi' : i < xs.length := by simpa using hi
      have hj' : j < xs.length := by simpa using hj
      have h1 : fyStep (x :: xs) (i + 1) (j + 1) = x :: fyStep xs i j := by
        simp [fyStep]
      rw [h1]
      exact (fyStep_perm xs i j hi' hj').cons x

/-- A Fisher-Yates swap does not change the length. -/
theorem fyStep_length (a : List Nat) (i j : Nat) :
    (fyStep a i j).length = a.length := by
  simp [fyStep]

/-- The whole swap loop preserves the multiset of list elements. -/
theorem fyGo_perm (rnd : Nat → Nat) :
    ∀ (i : Nat) (a : List Nat), i < a.length → List.Perm (fyGo rnd i a) a := by
  intro i
  induction i with
  | zero => intro a _; exact List.Perm.refl a
  | succ i ih =>
      intro a h
      have hj : rnd (i + 1) % (i + 2) < a.length :=
        Nat.lt_of_lt_of_le (Nat.mod_lt _ (Nat.succ_pos _)) (Nat.succ_le_of_lt h)
      have hstep : List.Perm (fyStep a (i + 1) (rnd (i + 1) % (i + 2))) a :=
        fyStep_perm a (i + 1) _ h hj
      have hlen : i < (fyStep a (i + 1) (rnd (i + 1) % (i + 2))).length := by
        rw [fyStep_length]
        exact lt_trans (Nat.lt_succ_self i) h
      exact (ih _ hlen).trans hstep

/-- fisherYatesShuffle returns a permutation of its input, whatever the
randomness source does. -/
theorem fisherYatesShuffle_perm (arr : List Nat) (rnd : Nat → Nat) :
    List.Perm (fisherYatesShuffle arr rnd) arr := by
  cases arr with
  | nil => exact List.Perm.refl _
  | cons x xs =>
      have h : (x :: xs).length - 1 < (x :: xs).length := by
        simp [Nat.lt_succ_self]
      exact fyGo_perm rnd _ _ h

/-- buildNewQueue yields a permutation of the index range of the corpus. -/
theorem buildNewQueue_perm (quotesLen : Nat) (rnd : Nat → Nat) :
    List.Perm (buildNewQueue quotesLen rnd) (List.range quotesLen) :=
  fisherYatesShuffle_perm (List.range quotesLen) rnd

/-- buildNewQueue is full length. -/
theorem buildNewQueue_length (quotesLen : Nat) (rnd : Nat → Nat) :
    (buildNewQueue quotesLen rnd).length = quotesLen := by
  simpa using (buildNewQueue_perm quotesLen rnd).length_eq

/-- buildNewQueue has no duplicate indices. -/
theorem buildNewQueue_nodup (quotesLen : Nat) (rnd : Nat → Nat) :
    (buildNewQueue quotesLen rnd).Nodup :=
  (buildNewQueue_perm quotesLen rnd).nodup_iff.mpr (List.nodup_range quotesLen)

/-- Every index in buildNewQueue is below the corpus length. -/
theorem buildNewQueue_mem_lt (quotesLen : Nat) (rnd : Nat → Nat) :
    ∀ i ∈ buildNewQueue quotesLen rnd, i < quotesLen := by
  intro i hi
  have hm := (buildNewQueue_perm quotesLen rnd).mem_iff.mp hi
  simpa using hm

end ShuffleLemmas

section RotationLemmas

/-- A call for a user with no stored state regenerates: it delivers the head
of a fresh full shuffle and stores its tail with the current corpus length. -/
theorem getNext_fresh (quotes : List String) (rnd : Nat → Nat) (m : QMap)
    (u : Nat) (hm : m u = none) :
    getNextQuoteForUser quotes rnd m u =
      ((buildNewQueue quotes.length rnd).head?.bind (fun i => quotes.get? i),
       fun v => if v = u then
           some ⟨(buildNewQueue quotes.length rnd).tail, quotes.length⟩
         else m v) := by
  simp [getNextQuoteForUser, hm]

/-- A call for a user whose stored state forces regeneration (stale version or
empty queue) delivers the head of a fresh full shuffle and stores its tail
with the current corpus length. -/
theorem getNext_regen (quotes : List String) (rnd : Nat → Nat) (m : QMap)
    (u : Nat) (st : RotationState) (hm : m u = some st)
    (h : st.version ≠ quotes.length ∨ st.queue = []) :
    getNextQuoteForUser quotes rnd m u =
      ((buildNewQueue quotes.length rnd).head?.bind (fun i => quotes.get? i),
       fun v => if v = u then
           some ⟨(buildNewQueue quotes.length rnd).tail, quotes.length⟩
         else m v) := by
  simp only [getNextQuoteForUser, hm, Option.getD_some]
  rw [if_pos h]

/-- A call for a user whose stored state is current and non-empty pops the
stored queue: no regeneration happens. -/
theorem getNext_noregen (quotes : List String) (rnd : Nat → Nat) (m : QMap)
    (u : Nat) (st : RotationState) (hm : m u = some st)
    (hv : st.version = quotes.length) (hq : st.queue ≠ []) :
    getNextQuoteForUser quotes rnd m u =
      (st.queue.head?.bind (fun i => quotes.get? i),
       fun v => if v = u then some ⟨st.queue.tail, st.version⟩ else m v) := by
  have hcond : ¬ (st.version ≠ quotes.length ∨ st.queue = []) := by
    simp [hv, hq]
  simp only [getNextQuoteForUser, hm, Option.getD_some]
  rw [if_neg hcond]

/-- Starting from a stored current-version queue q and making exactly
q.length calls pops q left to right: the delivered values are quotes[i] for
the indices i of q in order. -/
theorem iterateNext_pops (quotes : List String) (u : Nat) :
    ∀ (q : List Nat) (rnds : List (Nat → Nat)) (m : QMap),
      rnds.length = q.length →
      m u = some ⟨q, quotes.length⟩ →
      (iterateNext quotes u rnds m).1 = q.map (fun i => quotes.get? i)
  | q, [], m, hlen, _ => by
      have hq : q = [] := by
        cases q with
        | nil => rfl
        | cons a as => simp at hlen
      simp [iterateNext, hq]
  | q, r :: rs, m, hlen, hm => by
      cases q with
      | nil => simp at hlen
      | cons i q' =>
          have hstep := getNext_noregen quotes r m u ⟨i :: q', quotes.length⟩ hm rfl
            (by simp)
          have hm' : (getNextQuoteForUser quotes r m u).2 u = some ⟨q', quotes.length⟩ := by
            rw [hstep]; simp
          have hlen' : rs.length = q'.length := by simpa using hlen
          have ih := iterateNext_pops quotes u q' rs
            ((getNextQuoteForUser quotes r m u).2) hlen' hm'
          simp only [iterateNext, ih, List.map_cons]
          rw [hstep]; simp

/-- Indexing a list over the range of its length enumerates it: needed to
turn a permutation of indices into a permutation of delivered items. -/
theorem map_get_range (l : List α) :
    (List.range l.length).map (fun i => l.get? i) = l.map some := by
  induction l with
  | nil => simp
  | cons x xs ih =>
      have h : (List.range (x :: xs).length) = 0 :: (List.range xs.length).map Nat.succ := by
        simp [List.range_succ_eq_map]
      have h2 : ((fun i => (x :: xs).get? i) ∘ Nat.succ) = fun i => xs.get? i := by
        funext i; simp
      rw [h]
      simp only [List.map_cons, List.map_map, h2, ih]
      simp

/-- Any suffix of a permutation of the index range satisfies the invariant. -/
theorem queueInv_of_drop (v : Nat) (p : List Nat) (k : Nat)
    (hp : List.Perm p (List.range v)) : QueueInv ⟨List.drop k p, v⟩ := by
  refine ⟨?_, ?_, p, k, hp, rfl⟩
  · intro i hi
    have hip : i ∈ p := (List.drop_subset k p) hi
    have hm := hp.mem_iff.mp hip
    simpa using hm
  · exact (List.drop_sublist k p).nodup (hp.nodup_iff.mpr (List.nodup_range v))

end RotationLemmas

/-- C2: for every user and every non-empty corpus, a fresh generation of
exactly corpus.length consecutive getNextQuoteForUser calls delivers the
corpus along a duplicate-free permutation of the index range, so the returned
items are pairwise-distinct corpus entries and their multiset equals the full
corpus, each item exactly once. -/
theorem rotation_generation_permutation (quotes : List String) (u : Nat)
    (m : QMap) (rnds : List (Nat → Nat)) (hq : quotes ≠ [])
    (hlen : rnds.length = quotes.length) (hm : m u = none) :
    ∃ idxs : List Nat,
      List.Perm idxs (List.range quotes.length) ∧ idxs.Nodup ∧
      (iterateNext quotes u rnds m).1 = idxs.map (fun i => quotes.get? i) ∧
      List.Perm (iterateNext quotes u rnds m).1 (quotes.map some) := by
  cases rnds with
  | nil =>
      exfalso
      have h0 : quotes.length = 0 := by simpa using hlen.symm
      exact hq (List.length_eq_zero.mp h0)
  | cons r rs =>
      have hQperm := buildNewQueue_perm quotes.length r
      have hQlen := buildNewQueue_length quotes.length r
      have hfresh := getNext_fresh quotes r m u hm
      have hm2 : (getNextQuoteForUser quotes r m u).2 u =
          some ⟨(buildNewQueue quotes.length r).tail, quotes.length⟩ := by
        rw [hfresh]; simp
      have hlen1 : rs.length + 1 = quotes.length := by simpa using hlen
      have hlen2 : rs.length = (buildNewQueue quotes.length r).tail.length := by
        rw [List.length_tail, hQlen]
        omega
      have hQne : buildNewQueue quotes.length r ≠ [] := by
        intro hnil
        rw [hnil] at hQlen
        exact hq (List.length_eq_zero.mp hQlen.symm)
      obtain ⟨q0, Q', hQcons⟩ := List.exists_cons_of_ne_nil hQne
      have hres : (iterateNext quotes u (r :: rs) m).1 =
          (buildNewQueue quotes.length r).map (fun i => quotes.get? i) := by
        have hpops := iterateNext_pops quotes u (buildNewQueue quotes.length r).tail rs
          ((getNextQuoteForUser quotes r m u).2) hlen2 hm2
        simp only [iterateNext]
        rw [hpops, hfresh, hQcons]
        simp
      refine ⟨buildNewQueue quotes.length r, hQperm,
        hQperm.nodup_iff.mpr (List.nodup_range _), hres, ?_⟩
      rw [hres, ← map_get_range quotes]
      exact hQperm.map _

/-- Witness: corpus ["a", "b"], fresh user 0, two calls. -/
theorem rotation_generation_permutation_witness :
    ∃ idxs : List Nat,
      List.Perm idxs (List.range (["a", "b"] : List String).length) ∧ idxs.Nodup ∧
      (iterateNext ["a", "b"] 0 [fun _ => 0, fun _ => 0] (fun _ => none)).1 =
        idxs.map (fun i => (["a", "b"] : List String).get? i) ∧
      List.Perm (iterateNext ["a", "b"] 0 [fun _ => 0, fun _ => 0] (fun _ => none)).1
        ((["a", "b"] : List String).map some) :=
  rotation_generation_permutation ["a", "b"] 0 (fun _ => none)
    [fun _ => 0, fun _ => 0] (by simp) rfl rfl

/-- C4: a stored state with a stale version or an empty queue makes the very
next call pop from a fresh full-length shuffle over the current index range
and store version = corpus.length. -/
theorem version_invalidation_regenerates (quotes : List String) (rnd : Nat → Nat)
    (m : QMap) (u : Nat) (st : RotationState) (hm : m u = some st)
    (h : st.version ≠ quotes.length ∨ st.queue = []) :
    (getNextQuoteForUser quotes rnd m u).1 =
      (buildNewQueue quotes.length rnd).head?.bind (fun i => quotes.get? i) ∧
    (getNextQuoteForUser quotes rnd m u).2 u =
      some ⟨(buildNewQueue quotes.length rnd).tail, quotes.length⟩ ∧
    (buildNewQueue quotes.length rnd).length = quotes.length ∧
    List.Perm (buildNewQueue quotes.length rnd) (List.range quotes.length) := by
  have hr := getNext_regen quotes rnd m u st hm h
  exact ⟨by rw [hr], by rw [hr]; simp, buildNewQueue_length _ _, buildNewQueue_perm _ _⟩

/-- Witness: corpus ["a"], user 0 stored with stale version 3. -/
theorem version_invalidation_regenerates_witness :
    (getNextQuoteForUser ["a"] (fun _ => 0) (fun _ => some ⟨[5], 3⟩) 0).1 =
      (buildNewQueue (["a"] : List String).length (fun _ => 0)).head?.bind
        (fun i => (["a"] : List String).get? i) ∧
    (getNextQuoteForUser ["a"] (fun _ => 0) (fun _ => some ⟨[5], 3⟩) 0).2 0 =
      some ⟨(buildNewQueue (["a"] : List String).length (fun _ => 0)).tail,
        (["a"] : List String).length⟩ ∧
    (buildNewQueue (["a"] : List String).length (fun _ => 0)).length =
      (["a"] : List String).length ∧
    List.Perm (buildNewQueue (["a"] : List String).length (fun _ => 0))
      (List.range (["a"] : List String).length) :=
  version_invalidation_regenerates ["a"] (fun _ => 0) (fun _ => some ⟨[5], 3⟩) 0
    ⟨[5], 3⟩ rfl (Or.inl (by decide))

/-- C8: for every state of user u reachable by any sequence of
getNextQuoteForUser calls from an empty or freshly regenerated entry, every
queue index is in [0, version), no index repeats, and the queue is a
permutation of [0, version) minus its consumed prefix. -/
theorem rotation_queue_invariant (quotes : List String) (u : Nat) (m : QMap)
    (hr : ReachableQ quotes u m) (st : RotationState) (hm : m u = some st) :
    QueueInv st := by
  induction hr generalizing st with
  | empty m h => rw [h] at hm; exact absurd hm (by simp)
  | fresh m rnd h =>
      rw [h] at hm
      injection hm with hm
      have hinv := queueInv_of_drop quotes.length (buildNewQueue quotes.length rnd) 0
        (buildNewQueue_perm quotes.length rnd)
      rw [List.drop_zero] at hinv
      rw [← hm]
      exact hinv
  | step m rnd hr ih =>
      cases hmu : m u with
      | none =>
          have hfresh := getNext_fresh quotes rnd m u hmu
          rw [hfresh] at hm
          simp only [if_pos rfl] at hm
          injection hm with hm
          have hinv := queueInv_of_drop quotes.length (buildNewQueue quotes.length rnd) 1
            (buildNewQueue_perm quotes.length rnd)
          rw [List.drop_one] at hinv
          rw [← hm]
          exact hinv
      | some st0 =>
          by_cases hcond : st0.version ≠ quotes.length ∨ st0.queue = []
          · have hregen := getNext_regen quotes rnd m u st0 hmu hcond
            rw [hregen] at hm
            simp only [if_pos rfl] at hm
            injection hm with hm
            have hinv := queueInv_of_drop quotes.length (buildNewQueue quotes.length rnd) 1
              (buildNewQueue_perm quotes.length rnd)
            rw [List.drop_one] at hinv
            rw [← hm]
            exact hinv
          · push_neg at hcond
            obtain ⟨hv, hq⟩ := hcond
            have hnoregen := getNext_noregen quotes rnd m u st0 hmu hv hq
            rw [hnoregen] at hm
            simp only [if_pos rfl] at hm
            injection hm with hm
            obtain ⟨_, _, p, k, hp, hqk⟩ := ih st0 hmu
            have htail : st0.queue.tail = List.drop (k + 1) p := by
              rw [hqk, List.tail_drop]
            have hinv := queueInv_of_drop st0.version p (k + 1) hp
            rw [← htail] at hinv
            rw [← hm]
            exact hinv

/-- Witness: corpus ["a"], user 0, the state reached after one call from an
empty entry. -/
theorem rotation_queue_invariant_witness : QueueInv ⟨[], 1⟩ := by
  have hreach : ReachableQ ["a"] 0
      (getNextQuoteForUser ["a"] (fun _ => 0) (fun _ => none) 0).2 :=
    ReachableQ.step (fun _ => none) (fun _ => 0) (ReachableQ.empty _ rfl)
  exact rotation_queue_invariant ["a"] 0 _ hreach ⟨[], 1⟩ (by decide)

/-- C1 (refuted, code bug): on an empty corpus getNextQuoteForUser does not
report a no-content outcome; it still runs the pop path — shift() on the
empty regenerated queue yields undefined, quotes[undefined] is undefined, the
popped empty state is persisted, and the daily fan-out interpolates the
undefined into the outgoing text, sending the literal message
"📜 Daily quote: “undefined”" instead of no content. -/
theorem empty_corpus_sends_undefined :
    (getNextQuoteForUser [] (fun _ => 0) (fun _ => none) 7).1 = none ∧
    (getNextQuoteForUser [] (fun _ => 0) (fun _ => none) 7).2 7 = some ⟨[], 0⟩ ∧
    ((sendDailyQuotesToUsers [] (fun _ _ => 0) (fun _ _ => true) [7]
        (fun _ => none)).1).map (fun t => t.2.1) =
      ["📜 Daily quote:\n\n“undefined”"] :=
  ⟨rfl, by decide, rfl⟩

/-- C3 (refuted for one document, code bug): loadUsers, loadUserQueues and
readLines catch every read or parse failure and degrade to an empty default,
but the greeted-users load at module top level has no try/catch: a missing
file or malformed JSON throws and aborts startup; only an empty file is
rescued by the || "[]" fallback. -/
theorem persisted_loads_on_failure :
    loadUsers ReadResult.missing = [] ∧
    loadUsers ReadResult.malformed = [] ∧
    loadUsers ReadResult.emptyFile = [] ∧
    loadUserQueues 3 ReadResult.missing = [] ∧
    loadUserQueues 3 ReadResult.malformed = [] ∧
    readLines ReadResult.missing = [] ∧
    loadGreetedUsers ReadResult.emptyFile = Except.ok [] ∧
    loadGreetedUsers ReadResult.missing =
      Except.error "ENOENT: no such file or directory" ∧
    loadGreetedUsers ReadResult.malformed =
      Except.error "SyntaxError: Unexpected token in JSON" :=
  ⟨rfl, rfl, rfl, rfl, rfl, rfl, rfl, rfl, rfl⟩

/-- C7: the daily fan-out attempts a delivery to every recipient of the list
whatever the transport does: the trace covers the user list exactly and in
order, and neither the delivered messages nor the final rotation state depend
on the transport outcomes, so one recipient's failure cannot prevent or alter
the attempts for the remaining recipients. -/
theorem fanout_isolates_failures (quotes : List String) (rnd : Nat → Nat → Nat)
    (transport transport' : Nat → String → Bool) (userList : List Nat) (m : QMap) :
    ((sendDailyQuotesToUsers quotes rnd transport userList m).1).map
        (fun t => t.1) = userList ∧
    (sendDailyQuotesToUsers quotes rnd transport userList m).2 =
      (sendDailyQuotesToUsers quotes rnd transport' userList m).2 ∧
    ((sendDailyQuotesToUsers quotes rnd transport userList m).1).map
        (fun t => t.2.1) =
      ((sendDailyQuotesToUsers quotes rnd transport' userList m).1).map
        (fun t => t.2.1) := by
  induction userList generalizing m with
  | nil => exact ⟨rfl, rfl, rfl⟩
  | cons uid rest ih =>
      obtain ⟨ih1, ih2, ih3⟩ := ih (getNextQuoteForUser quotes (rnd uid) m uid).2
      refine ⟨?_, ?_, ?_⟩
      · simp only [sendDailyQuotesToUsers, List.map_cons]
        rw [ih1]
      · simp only [sendDailyQuotesToUsers]
        exact ih2
      · simp only [sendDailyQuotesToUsers, List.map_cons]
        rw [ih3]

/-- A defaulted index access at an in-range position yields a list member. -/
theorem getD_mem_of_lt (l : List String) (n : Nat) (d : String)
    (h : n < l.length) : l.getD n d ∈ l := by
  rw [List.getD_eq_getElem?_getD, List.getElem?_eq_getElem h]
  exact List.getElem_mem h

/-- C6: getRandomArticle never returns an identifier already recorded in the
posted set, and once every pool item is posted every subsequent call returns
none and leaves the posted set unchanged. -/
theorem article_never_repeats_and_exhausts (posted : List String) :
    (∀ rnd c, (getRandomArticle posted rnd).1 = some c → c ∉ posted) ∧
    ((∀ a ∈ dummyArticles, a ∈ posted) →
      ∀ rnds : List Nat,
        (runArticles posted rnds).1 = rnds.map (fun _ => none) ∧
        (runArticles posted rnds).2 = posted) := by
  constructor
  · intro rnd c hc
    unfold getRandomArticle at hc
    simp only [] at hc
    split at hc
    · simp at hc
    · rename_i hemp
      have hne : dummyArticles.filter (fun url => !(posted.contains url)) ≠ [] := by
        simpa using hemp
      have hlt : rnd % (dummyArticles.filter (fun url => !(posted.contains url))).length <
          (dummyArticles.filter (fun url => !(posted.contains url))).length :=
        Nat.mod_lt _ (List.length_pos.mpr hne)
      have hc2 : (dummyArticles.filter (fun url => !(posted.contains url))).getD
          (rnd % (dummyArticles.filter (fun url => !(posted.contains url))).length) "" = c :=
        Option.some.inj hc
      have hmem := getD_mem_of_lt _ _ "" hlt
      rw [hc2] at hmem
      have hpred := List.of_mem_filter hmem
      simpa using hpred
  · intro hall rnds
    have hnil : dummyArticles.filter (fun url => !(posted.contains url)) = [] := by
      rw [List.filter_eq_nil_iff]
      intro a ha
      simp [List.contains, hall a ha]
    have hstep : ∀ rnd, getRandomArticle posted rnd = (none, posted) := by
      intro rnd
      unfold getRandomArticle
      rw [hnil]
      rfl
    induction rnds with
    | nil => exact ⟨rfl, rfl⟩
    | cons r rs ih =>
        obtain ⟨ih1, ih2⟩ := ih
        simp only [runArticles, hstep r, List.map_cons]
        exact ⟨by rw [ih1], ih2⟩

/-- Witness: a fully served pool returns none twice, and a partially served
pool never returns an already-served item. -/
theorem article_never_repeats_and_exhausts_witness :
    (runArticles dummyArticles [0, 1]).1 = [none, none] ∧
    (runArticles dummyArticles [0, 1]).2 = dummyArticles :=
  (article_never_repeats_and_exhausts dummyArticles).2 (fun _ ha => ha) [0, 1]

/-- Association-list lookup commutes with mapping over the stored values. -/
theorem lookup_map_value (f : QueueEntry → QueueEntry) :
    ∀ (l : List (Nat × QueueEntry)) (u : Nat),
      (l.map (fun p => (p.1, f p.2))).lookup u = (l.lookup u).map f
  | [], _ => rfl
  | (k, v) :: rest, u => by
      simp only [List.map_cons, List.lookup]
      cases h : (u == k) with
      | true => rfl
      | false => exact lookup_map_value f rest u

/-- C10: a persisted legacy bare-number rotation entry is replaced at load
time by { queue: [], version: corpus.length }, and the very next call for
that user regenerates a fresh shuffled queue (pops the head of a full
shuffle) instead of using the legacy value. -/
theorem legacy_number_entry_regenerates (quotes : List String) (rnd : Nat → Nat)
    (entries : List (Nat × QueueEntry)) (u : Nat) (k : Int)
    (hl : entries.lookup u = some (Sum.inl k)) :
    (loadUserQueues quotes.length (ReadResult.ok entries)).lookup u =
      some (Sum.inr ⟨[], quotes.length⟩) ∧
    (getNextQuoteForUser quotes rnd
        (queuesMap (loadUserQueues quotes.length (ReadResult.ok entries))) u).1 =
      (buildNewQueue quotes.length rnd).head?.bind (fun i => quotes.get? i) ∧
    (getNextQuoteForUser quotes rnd
        (queuesMap (loadUserQueues quotes.length (ReadResult.ok entries))) u).2 u =
      some ⟨(buildNewQueue quotes.length rnd).tail, quotes.length⟩ := by
  have h1 : (loadUserQueues quotes.length (ReadResult.ok entries)).lookup u =
      some (Sum.inr (⟨[], quotes.length⟩ : RotationState)) := by
    simp only [loadUserQueues]
    rw [lookup_map_value (migrateEntry quotes.length) entries u, hl]
    rfl
  have h2 : queuesMap (loadUserQueues quotes.length (ReadResult.ok entries)) u =
      some ⟨[], quotes.length⟩ := by
    simp [queuesMap, h1]
  have hreg := getNext_regen quotes rnd
    (queuesMap (loadUserQueues quotes.length (ReadResult.ok entries))) u
    ⟨[], quotes.length⟩ h2 (Or.inr rfl)
  exact ⟨h1, by rw [hreg], by rw [hreg]; simp⟩

/-- Witness: corpus ["a"], a stored legacy entry 7 for user 3. -/
theorem legacy_number_entry_regenerates_witness :
    (loadUserQueues (["a"] : List String).length
        (ReadResult.ok [(3, Sum.inl 7)])).lookup 3 =
      some (Sum.inr ⟨[], (["a"] : List String).length⟩) ∧
    (getNextQuoteForUser ["a"] (fun _ => 0)
        (queuesMap (loadUserQueues (["a"] : List String).length
          (ReadResult.ok [(3, Sum.inl 7)]))) 3).1 =
      (buildNewQueue (["a"] : List String).length (fun _ => 0)).head?.bind
        (fun i => (["a"] : List String).get? i) ∧
    (getNextQuoteForUser ["a"] (fun _ => 0)
        (queuesMap (loadUserQueues (["a"] : List String).length
          (ReadResult.ok [(3, Sum.inl 7)]))) 3).2 3 =
      some ⟨(buildNewQueue (["a"] : List String).length (fun _ => 0)).tail,
        (["a"] : List String).length⟩ :=
  legacy_number_entry_regenerates ["a"] (fun _ => 0) [(3, Sum.inl 7)] 3 7 rfl

/-- C9 counterexample: the scheduled channel broadcast is not a rotation
draw.  At the concrete corpus ["a", "b"] it returns the same item "a" from
two different rotation states — a fresh one and a mid-generation one whose
current generation has already delivered "a" — leaving both untouched, and
its first two consecutive firings can both deliver "a", which two pops of one
fresh two-item generation can never do. -/
theorem channel_broadcast_ignores_rotation :
    channelQuoteBroadcast ["a", "b"] 0 mapFresh = (some "a", mapFresh) ∧
    channelQuoteBroadcast ["a", "b"] 0 mapMidGeneration =
      (some "a", mapMidGeneration) ∧
    mapFresh ≠ mapMidGeneration ∧
    (channelQuoteBroadcast ["a", "b"] 0
      (channelQuoteBroadcast ["a", "b"] 0 mapFresh).2).1 = some "a" := by
  refine ⟨rfl, rfl, ?_, rfl⟩
  intro h
  have h0 := congrFun h 0
  simp [mapFresh, mapMidGeneration] at h0

/-- C9 as amended: the scheduled channel broadcast delivers a corpus item
picked by an independent uniform random index — it never consults or updates
any rotation state, its result is the same whatever the rotation map holds,
and on a non-empty corpus it is some in-range corpus item. -/
theorem channel_broadcast_random_item (quotes : List String) (rnd : Nat)
    (m m' : QMap) :
    (channelQuoteBroadcast quotes rnd m).2 = m ∧
    (channelQuoteBroadcast quotes rnd m).1 =
      (channelQuoteBroadcast quotes rnd m').1 ∧
    (quotes ≠ [] → ∃ i, i < quotes.length ∧
      (channelQuoteBroadcast quotes rnd m).1 = quotes.get? i) := by
  refine ⟨rfl, rfl, fun hq => ⟨rnd % quotes.length, ?_, rfl⟩⟩
  exact Nat.mod_lt _ (List.length_pos.mpr hq)

/-- Witness: corpus ["a", "b"], randomness 1, two different rotation maps. -/
theorem channel_broadcast_random_item_witness :
    ∃ i, i < (["a", "b"] : List String).length ∧
      (channelQuoteBroadcast ["a", "b"] 1 mapFresh).1 =
        (["a", "b"] : List String).get? i :=
  (channel_broadcast_random_item ["a", "b"] 1 mapFresh mapMidGeneration).2.2
    (by simp)

section GreetLemmas

/-- The greeted set only grows across one handler call. -/
theorem handle_greeted_mono (st : RegState) (msg : Msg) (u : Nat)
    (h : u ∈ st.greeted) : u ∈ (handleMessage st msg).2.greeted := by
  by_cases hc : greetCondition st.greeted msg
  · simp [handleMessage, hc, List.mem_append, h]
  · simp [handleMessage, hc, h]

/-- The greeted set only grows across a whole message sequence. -/
theorem run_greeted_mono (u : Nat) :
    ∀ (msgs : List Msg) (st : RegState), u ∈ st.greeted →
      u ∈ (runMessages st msgs).2.greeted
  | [], _, h => h
  | msg :: rest, st, h => by
      simp only [runMessages]
      exact run_greeted_mono u rest _ (handle_greeted_mono st msg u h)

/-- A message from an already-greeted user never takes the greet branch. -/
theorem handle_flag_false_of_greeted (st : RegState) (msg : Msg)
    (h : msg.fromId ∈ st.greeted) : (handleMessage st msg).1 = false := by
  have hcond : greetCondition st.greeted msg = false := by
    unfold greetCondition
    simp [List.contains, h]
  simp [handleMessage, hcond]

/-- When the greet branch fires, the sender lands in the greeted set. -/
theorem handle_flag_true_mem (st : RegState) (msg : Msg)
    (h : (handleMessage st msg).1 = true) :
    msg.fromId ∈ (handleMessage st msg).2.greeted := by
  by_cases hc : greetCondition st.greeted msg
  · simp [handleMessage, hc]
  · simp [handleMessage, hc] at h

/-- Once u is in the greeted set, no later message greets u again. -/
theorem greetCount_zero_of_greeted (u : Nat) :
    ∀ (msgs : List Msg) (st : RegState), u ∈ st.greeted →
      greetCount (runMessages st msgs).1 u = 0
  | [], _, _ => rfl
  | msg :: rest, st, h => by
      have hrest := greetCount_zero_of_greeted u rest
        ((handleMessage st msg).2) (handle_greeted_mono st msg u h)
      have hp : ((msg.fromId == u) && (handleMessage st msg).1) = false := by
        by_cases hfu : msg.fromId = u
        · rw [handle_flag_false_of_greeted st msg (by rw [hfu]; exact h)]
          simp
        · simp [hfu]
      simp only [runMessages, greetCount, List.countP_cons] at hrest ⊢
      rw [hrest, hp]
      simp

/-- A trace never greets u more than once. -/
theorem greetCount_le_one (u : Nat) :
    ∀ (msgs : List Msg) (st : RegState), greetCount (runMessages st msgs).1 u ≤ 1
  | [], _ => Nat.zero_le 1
  | msg :: rest, st => by
      by_cases hp : ((msg.fromId == u) && (handleMessage st msg).1) = true
      · have hflag : (handleMessage st msg).1 = true := (Bool.and_eq_true_iff.mp hp).2
        have hfu : msg.fromId = u := eq_of_beq (Bool.and_eq_true_iff.mp hp).1
        have hmem : u ∈ (handleMessage st msg).2.greeted := by
          rw [← hfu]
          exact handle_flag_true_mem st msg hflag
        have hrest := greetCount_zero_of_greeted u rest
          ((handleMessage st msg).2) hmem
        simp only [runMessages, greetCount, List.countP_cons] at hrest ⊢
        rw [hrest, hp]
        simp
      · have hrest := greetCount_le_one u rest ((handleMessage st msg).2)
        have hp' : ((msg.fromId == u) && (handleMessage st msg).1) = false :=
          Bool.eq_false_iff.mpr hp
        simp only [runMessages, greetCount, List.countP_cons] at hrest ⊢
        rw [hp']
        simpa using hrest

/-- A message from u that does not qualify leaves u out of the greeted set. -/
theorem handle_not_greeted (st : RegState) (msg : Msg) (u : Nat)
    (hng : u ∉ st.greeted) (hq : qualifies u msg = false) :
    u ∉ (handleMessage st msg).2.greeted := by
  by_cases hc : greetCondition st.greeted msg
  · have hfu : msg.fromId ≠ u := by
      intro hfu
      have htext : isChatText msg.text = true := (Bool.and_eq_true_iff.mp hc).2
      have hqt : qualifies u msg = true := by
        unfold qualifies
        simp [hfu, htext]
      rw [hqt] at hq
      exact absurd hq (by simp)
    simp only [handleMessage, if_pos hc]
    simp [List.mem_append, hng]
    exact fun h => hfu h.symm
  · simp [handleMessage, hc, hng]

/-- An ungreeted user with a qualifying message somewhere in the sequence is
greeted exactly once and ends up persisted in the greeted set. -/
theorem greetCount_eq_one (u : Nat) :
    ∀ (msgs : List Msg) (st : RegState), u ∉ st.greeted →
      (∃ msg ∈ msgs, qualifies u msg = true) →
      greetCount (runMessages st msgs).1 u = 1 ∧
      u ∈ (runMessages st msgs).2.greeted
  | [], _, _, hex => by simp at hex
  | msg :: rest, st, hng, hex => by
      by_cases hq : qualifies u msg = true
      · have hfu : msg.fromId = u := eq_of_beq (Bool.and_eq_true_iff.mp hq).1
        have htext : isChatText msg.text = true := (Bool.and_eq_true_iff.mp hq).2
        have hmemf : msg.fromId ∉ st.greeted := by
          rw [hfu]
          exact hng
        have hcond : greetCondition st.greeted msg = true := by
          unfold greetCondition
          simp [List.contains, hmemf, htext]
        have hflag : (handleMessage st msg).1 = true := by
          simp [handleMessage, hcond]
        have hmem : u ∈ (handleMessage st msg).2.greeted := by
          rw [← hfu]
          exact handle_flag_true_mem st msg hflag
        have hrest := greetCount_zero_of_greeted u rest
          ((handleMessage st msg).2) hmem
        constructor
        · simp only [runMessages, greetCount, List.countP_cons] at hrest ⊢
          rw [hrest]
          simp [hfu, hflag]
        · simp only [runMessages]
          exact run_greeted_mono u rest _ hmem
      · have hqf : qualifies u msg = false := Bool.eq_false_iff.mpr hq
        have hng' : u ∉ (handleMessage st msg).2.greeted :=
          handle_not_greeted st msg u hng hqf
        have hex' : ∃ m ∈ rest, qualifies u m = true := by
          obtain ⟨mm, hmm, hmq⟩ := hex
          rcases List.mem_cons.mp hmm with heq | hin
          · rw [heq] at hmq
            exact absurd hmq hq
          · exact ⟨mm, hin, hmq⟩
        have hcount0 : ((msg.fromId == u) && (handleMessage st msg).1) = false := by
          by_cases hfu : msg.fromId = u
          · have htext : isChatText msg.text = false := by
              have hq2 := hqf
              unfold qualifies at hq2
              simpa [hfu] using hq2
            have hcond : greetCondition st.greeted msg = false := by
              unfold greetCondition
              simp [htext]
            have hflag : (handleMessage st msg).1 = false := by
              simp [handleMessage, hcond]
            simp [hflag]
          · simp [hfu]
        obtain ⟨ih1, ih2⟩ := greetCount_eq_one u rest
          ((handleMessage st msg).2) hng' hex'
        constructor
        · simp only [runMessages, greetCount, List.countP_cons] at ih1 ⊢
          rw [ih1, hcount0]
          simp
        · simp only [runMessages]
          exact ih2

end GreetLemmas

/-- C5: across any inbound message sequence the greet-once logic greets a
user at most once; an ungreeted user who sends some qualifying message (a
non-empty text that is not a command) is greeted exactly once, the insertion
is persisted, and every later message of that user returns no greeting. -/
theorem greet_once (st : RegState) (msgs : List Msg) (u : Nat) :
    greetCount (runMessages st msgs).1 u ≤ 1 ∧
    (u ∉ st.greeted → (∃ msg ∈ msgs, qualifies u msg = true) →
      greetCount (runMessages st msgs).1 u = 1 ∧
      u ∈ (runMessages st msgs).2.greeted) :=
  ⟨greetCount_le_one u msgs st, fun hng hex => greetCount_eq_one u msgs st hng hex⟩

/-- Witness: user 5 sends two normal texts from a fresh registry; exactly one
greeting is sent and the user is recorded greeted. -/
theorem greet_once_witness :
    greetCount (runMessages ⟨[], []⟩
      [⟨5, 5, some "hello"⟩, ⟨5, 5, some "again"⟩]).1 5 = 1 ∧
    5 ∈ (runMessages ⟨[], []⟩
      [⟨5, 5, some "hello"⟩, ⟨5, 5, some "again"⟩]).2.greeted :=
  (greet_once ⟨[], []⟩ [⟨5, 5, some "hello"⟩, ⟨5, 5, some "again"⟩] 5).2
    (by decide) ⟨⟨5, 5, some "hello"⟩, by simp, by decide⟩

end LuckyPuppy
